import Mathlib

/-!
Verification of the browser-tab relevance retriever
(`web_va/browser_backend/tabs_retriever.py`).

The embedding models Python strings as Lean `String` (a wrapped `List Char`;
Python slicing and `len` act on code points, exactly as `List.take` /
`List.length` on `String.data`), Python `float` scores as exact real numbers
(`ℝ` for the raw cosine similarity; caller-supplied thresholds such as `0.05`
are dyadic rationals, modelled as `ℚ`), `Counter` term-frequency vectors as
the underlying token list (a count is `List.count`; the counter is empty iff
the list is), and fallible Python code as `Except`-valued functions.
-/

namespace TabsRetriever

open scoped List

/-! ### Tokenization

`_tokenize` is `re.findall(r"[a-z0-9]{3,}", (text or "").lower())`:
lowercase the text, then collect the maximal runs of characters in
`[a-z0-9]` whose length is at least 3.
-/

/-- ASCII lowercasing of one character, as `str.lower` acts on the
characters relevant to the `[a-z0-9]` token alphabet. -/
def lowerAscii (c : Char) : Char :=
  if 'A' ≤ c ∧ c ≤ 'Z' then Char.ofNat (c.toNat + 32) else c

/-- Membership in the regex character class `[a-z0-9]`. -/
def isTokenChar (c : Char) : Bool :=
  ('a' ≤ c && c ≤ 'z') || ('0' ≤ c && c ≤ '9')

/-- One left-to-right pass extracting maximal `[a-z0-9]` runs of length ≥ 3.
`acc` holds the (reversed) run currently being read. -/
def tokenizeChars : List Char → List Char → List String
  | [], acc => if 3 ≤ acc.length then [String.mk acc.reverse] else []
  | c :: cs, acc =>
    if isTokenChar c then tokenizeChars cs (c :: acc)
    else (if 3 ≤ acc.length then [String.mk acc.reverse] else []) ++ tokenizeChars cs []

/-- `TabRetriever._tokenize`. -/
def tokenize (text : String) : List String :=
  tokenizeChars (text.data.map lowerAscii) []

/-! ### Term-frequency vectors

A `collections.Counter` built from a token list.  We keep the token list
itself; `vec[t]` is `List.count t`, the counter's key set is `List.toFinset`,
and the counter is falsy exactly when the list is empty.
-/

/-- A term-frequency vector: the token multiset presented as a list. -/
abbrev Vec := List String

/-- The dot product `sum(vec_a[token] * vec_b.get(token, 0) for token in vec_a)`
from `_cosine_similarity`: iteration over the distinct keys of `vec_a`. -/
def dot (a b : Vec) : ℕ :=
  ∑ t ∈ a.toFinset, a.count t * b.count t

/-- The squared Euclidean norm `sum(v * v for v in vec_a.values())`. -/
def normSq (a : Vec) : ℕ :=
  ∑ t ∈ a.toFinset, a.count t ^ 2

/-- `TabRetriever._cosine_similarity` with float arithmetic idealized as real
arithmetic.  The two guards mirror the source: `if not vec_a or not vec_b`
(empty counters) and `if not norm_a or not norm_b` (a float norm is falsy iff
it is `0.0`, and `Real.sqrt x = 0 ↔ x = 0` for a cast `ℕ`, so the check is
made on the squared norms). -/
noncomputable def cosineSimilarity (a b : Vec) : ℝ :=
  if a.isEmpty || b.isEmpty then 0
  else if normSq a = 0 || normSq b = 0 then 0
  else (dot a b : ℝ) / (Real.sqrt (normSq a) * Real.sqrt (normSq b))

/-! ### Exact decision procedures for the float comparisons in `search`

`search` compares the similarity against `min_score` and stores
`round(score, 4)`.  Both are computed exactly here: for non-degenerate
vectors the score is `dot / √(normSq a * normSq b)`, so comparisons against
a rational reduce to integer comparisons after squaring, and rounding
reduces to an integer square root. -/

/-- Binary search for the integer square root: maintains `lo² ≤ m < hi²`.
The fuel argument is only there to make the recursion structural; it is
always given large enough to let the search finish (see `isqrtGo_spec`). -/
def isqrtGo (m : ℕ) : ℕ → ℕ → ℕ → ℕ
  | lo, _, 0 => lo
  | lo, hi, fuel + 1 =>
    if hi ≤ lo + 1 then lo
    else
      let mid := (lo + hi) / 2
      if mid * mid ≤ m then isqrtGo m mid hi fuel else isqrtGo m lo mid fuel

/-- Integer square root, `⌊√m⌋`, via `isqrtGo`. -/
def intSqrt (m : ℕ) : ℕ :=
  isqrtGo m 0 (m + 1) (m + 1)

theorem isqrtGo_spec (m : ℕ) :
    ∀ (fuel lo hi : ℕ), lo * lo ≤ m → m < hi * hi → hi - lo ≤ 2 ^ fuel →
      isqrtGo m lo hi fuel * isqrtGo m lo hi fuel ≤ m ∧
        m < (isqrtGo m lo hi fuel + 1) * (isqrtGo m lo hi fuel + 1) := by
  intro fuel
  induction fuel with
  | zero =>
    intro lo hi hlo hhi hf
    simp only [isqrtGo]
    have : hi ≤ lo + 1 := by rw [pow_zero] at hf; omega
    refine ⟨hlo, lt_of_lt_of_le hhi ?_⟩
    exact Nat.mul_le_mul this this
  | succ fuel ih =>
    intro lo hi hlo hhi hf
    simp only [isqrtGo]
    by_cases hsmall : hi ≤ lo + 1
    · rw [if_pos hsmall]
      exact ⟨hlo, lt_of_lt_of_le hhi (Nat.mul_le_mul hsmall hsmall)⟩
    · rw [if_neg hsmall]
      have hpow : 2 ^ (fuel + 1) = 2 ^ fuel + 2 ^ fuel := by
        rw [pow_succ]; omega
      by_cases hmid : ((lo + hi) / 2) * ((lo + hi) / 2) ≤ m
      · rw [if_pos hmid]
        exact ih ((lo + hi) / 2) hi hmid hhi (by omega)
      · rw [if_neg hmid]
        exact ih lo ((lo + hi) / 2) hlo (by omega) (by omega)

theorem intSqrt_spec (m : ℕ) :
    intSqrt m * intSqrt m ≤ m ∧ m < (intSqrt m + 1) * (intSqrt m + 1) := by
  have h2 : m + 1 ≤ 2 ^ (m + 1) := by
    calc m + 1 ≤ 2 ^ m + 1 := by
          have := Nat.lt_two_pow m
          omega
    _ ≤ 2 ^ (m + 1) := by
          have : 0 < 2 ^ m := Nat.pos_pow_of_pos m (by omega)
          rw [pow_succ]
          omega
  exact isqrtGo_spec m (m + 1) 0 (m + 1) (by omega) (by nlinarith) (by omega)

/-- Fuel-based Euclid recursion; structural, so that it reduces in the kernel
(`Nat.gcd` itself is defined by well-founded recursion and does not). -/
def gcdF : ℕ → ℕ → ℕ → ℕ
  | 0, _, b => b
  | f + 1, a, b => if a = 0 then b else gcdF f (b % a) a

/-- Kernel-reducible greatest common divisor (see `myGcd_eq`). -/
def myGcd (a b : ℕ) : ℕ := gcdF (a + 1) a b

theorem gcdF_eq (f a b : ℕ) (h : a < f + 1) : gcdF (f + 1) a b = Nat.gcd a b := by
  induction f generalizing a b with
  | zero =>
    have : a = 0 := by omega
    subst this
    simp [gcdF]
  | succ f ih =>
    rw [gcdF]
    by_cases ha : a = 0
    · simp [ha]
    · rw [if_neg ha, Nat.gcd_rec a b]
      have hlt : b % a < a := Nat.mod_lt _ (Nat.pos_of_ne_zero ha)
      exact ih _ _ (by omega)

theorem myGcd_eq (a b : ℕ) : myGcd a b = Nat.gcd a b := gcdF_eq a a b (by omega)

/-- The rational `a / b` built in lowest terms directly with `Rat.mk'`, so
that concrete values reduce in the kernel (the `Rat` field operations
normalize through `Nat.gcd` and do not).  `natDivQ_eq` identifies it with
rational division. -/
def natDivQ (a b : ℕ) : ℚ :=
  if hb : b = 0 then 0
  else
    Rat.mk' (Int.ofNat (a / myGcd a b)) (b / myGcd a b)
      (by
        rw [myGcd_eq]
        have hg : 0 < Nat.gcd a b := Nat.gcd_pos_of_pos_right a (Nat.pos_of_ne_zero hb)
        have := Nat.div_pos (Nat.le_of_dvd (Nat.pos_of_ne_zero hb) (Nat.gcd_dvd_right a b)) hg
        omega)
      (by
        rw [myGcd_eq]
        simpa using Nat.coprime_div_gcd_div_gcd
          (Nat.gcd_pos_of_pos_right a (Nat.pos_of_ne_zero hb)))

theorem natDivQ_eq (a b : ℕ) (hb : b ≠ 0) : natDivQ a b = (a : ℚ) / (b : ℚ) := by
  rw [natDivQ, dif_neg hb]
  have hg : 0 < Nat.gcd a b := Nat.gcd_pos_of_pos_right a (Nat.pos_of_ne_zero hb)
  have hgQ : ((Nat.gcd a b : ℚ)) ≠ 0 := by exact_mod_cast hg.ne'
  rw [Rat.mk'_eq_divInt, Rat.divInt_eq_div, myGcd_eq]
  simp only [Int.ofNat_eq_natCast, Int.cast_natCast,
    Nat.cast_div (Nat.gcd_dvd_left a b) hgQ, Nat.cast_div (Nat.gcd_dvd_right a b) hgQ]
  have hbQ : ((b : ℚ)) ≠ 0 := by exact_mod_cast hb
  field_simp

/-- Exact value of Python's `round(d / sqrt n, 4)` (round half to even) for
natural `d`, `n` with `n > 0`: `round` of `10 ^ 4 * d / √n`, divided by
`10 ^ 4`.  `k = ⌊10 ^ 4 * d / √n⌋`, and the fractional part is compared with
`1/2` by comparing `(2 * 10 ^ 4 * d)²` with `(2k + 1)² * n`. -/
def round4 (d n : ℕ) : ℚ :=
  let D := 10000 * d
  let k := intSqrt (D * D / n)
  let r :=
    if 4 * (D * D) < (2 * k + 1) * (2 * k + 1) * n then k
    else if (2 * k + 1) * (2 * k + 1) * n < 4 * (D * D) then k + 1
    else if k % 2 = 0 then k else k + 1
  natDivQ r 10000

/-- Decides `min_score ≤ score` for the similarity of `a` and `b`, exactly:
in the non-degenerate branch the score is `dot / √(normSq a * normSq b)`,
which is `≥ q` iff `q ≤ 0` (that is, `q.num ≤ 0`) or, after squaring and
clearing denominators, `q.num² * (normSq a * normSq b) ≤ dot² * q.den²`
(see `le_cosineSimilarity_of_simGE`).  Stated on `q.num` / `q.den` so that
it reduces in the kernel. -/
def simGE (a b : Vec) (q : ℚ) : Bool :=
  if a.isEmpty || b.isEmpty then decide (q.num ≤ 0)
  else if normSq a = 0 || normSq b = 0 then decide (q.num ≤ 0)
  else decide (q.num ≤ 0) ||
    decide (q.num ^ 2 * ((normSq a : ℤ) * (normSq b : ℤ)) ≤
      (dot a b : ℤ) ^ 2 * (q.den : ℤ) ^ 2)

/-- The `score` field stored in a returned match: `round(score, 4)`,
with the same degenerate-case guards as `_cosine_similarity`. -/
def matchScore (a b : Vec) : ℚ :=
  if a.isEmpty || b.isEmpty then 0
  else if normSq a = 0 || normSq b = 0 then 0
  else round4 (dot a b) (normSq a * normSq b)

/-! ### Data model: tabs, matches, retriever state -/

/-- A stored Tab record: §3 of the design requires all three fields present
as text.  (`save_tabs` sanitization establishes this shape.) -/
structure Tab where
  title : String
  url : String
  content : String
deriving DecidableEq

/-- A search result record `{title, url, snippet, score}`. -/
structure Match where
  title : String
  url : String
  snippet : String
  score : ℚ
deriving DecidableEq

/-- The document text of a tab, `f"{title} {content}"`, for `_vectorize_tab`. -/
def tabText (t : Tab) : String := t.title ++ " " ++ t.content

/-- `TabRetriever._vectorize_tab`. -/
def tabVector (t : Tab) : Vec := tokenize (tabText t)

/-- `TabRetriever._vectorize_query`. -/
def vectorizeQuery (query : String) : Vec := tokenize query

/-- The mutable state of a `TabRetriever`: the Snapshot (`self.tabs`) and the
derived term-frequency vectors (`self.vectors`). -/
structure Retriever where
  tabs : List Tab
  vectors : List Vec
deriving DecidableEq

/-- A retriever state whose vectors are freshly rebuilt from the snapshot,
as `_vectorize_all` leaves them. -/
def ofSnapshot (tabs : List Tab) : Retriever :=
  { tabs := tabs, vectors := tabs.map tabVector }

/-- `TabRetriever.has_tabs`. -/
def has_tabs (st : Retriever) : Bool := decide (0 < st.tabs.length)

/-! ### Search -/

/-- Python's slice `l[:k]` for an arbitrary integer `k`: a nonnegative stop
index takes the first `k` elements, a negative one counts from the end. -/
def pySlice {α : Type} (l : List α) (k : ℤ) : List α :=
  if 0 ≤ k then l.take k.toNat else l.take ((l.length : ℤ) + k).toNat

/-- Python's character slice `s[:n]` (`String.data` is the code-point list). -/
def pyTake (s : String) (n : ℕ) : String := String.mk (s.data.take n)

/-- The filtering loop of `search`: for every tab (in Snapshot order, the
loop runs over `self.vectors` with `self.tabs[index]` looked up at the same
index, here presented as a zip), keep a fresh `Match` whenever
`score >= min_score`.  The stored `score` is `round(score, 4)`. -/
def searchAll (st : Retriever) (query : String) (min_score : ℚ) : List Match :=
  let query_vec := vectorizeQuery query
  (st.tabs.zip st.vectors).filterMap fun td =>
    if simGE query_vec td.2 min_score then
      some { title := td.1.title, url := td.1.url,
             snippet := pyTake td.1.content 320,
             score := matchScore query_vec td.2 }
    else none

/-- The sort key ordering of `results.sort(key=lambda item: item["score"],
reverse=True)`: descending by stored score. -/
def scoreGE (x y : Match) : Prop := y.score ≤ x.score

instance : DecidableRel scoreGE :=
  fun x y => inferInstanceAs (Decidable (y.score ≤ x.score))

instance : IsTotal Match scoreGE := ⟨fun x y => le_total y.score x.score⟩

instance : IsTrans Match scoreGE := ⟨fun _ _ _ h1 h2 => le_trans h2 h1⟩

/-- `TabRetriever.search`.  Python's `list.sort` is a stable sort, modelled
by insertion sort (stable sorts with the same total preorder agree); the
final `results[:top_k]` is the Python slice.  The source's defaults are
`top_k=3`, `min_score=0.05`. -/
def search (st : Retriever) (query : String) (top_k : ℤ) (min_score : ℚ) :
    List Match :=
  pySlice (List.insertionSort scoreGE (searchAll st query min_score)) top_k

/-! ### Subtask grouping -/

/-- One group of `group_tabs_for_subtasks`. -/
structure SubtaskGroup where
  subtask : String
  tabs : List Match
  matchCount : ℕ
deriving DecidableEq

/-- Python's `str.strip()` on its default (ASCII-relevant) whitespace. -/
def isPySpace (c : Char) : Bool :=
  c = ' ' || c = '\t' || c = '\n' || c = '\r' || c = '\x0b' || c = '\x0c'

/-- Python's `str.strip()`: drop leading and trailing whitespace. -/
def pyStrip (s : String) : String :=
  String.mk (((s.data.dropWhile isPySpace).reverse.dropWhile isPySpace).reverse)

/-- `group_tabs_for_subtasks`: short-circuit on an empty corpus, then one
independent `search` per subtask with `combined_query = f"{task_name}
{name}".strip()`.  The call `_retriever.search(combined_query, top_k=top_k)`
leaves `min_score` at its default `0.05`. -/
def group_tabs_for_subtasks (st : Retriever) (task_name : String)
    (subtask_names : List String) (top_k : ℤ) : List SubtaskGroup :=
  if has_tabs st = false then []
  else
    subtask_names.map fun name =>
      let combined_query := pyStrip (task_name ++ " " ++ name)
      let tabs := search st combined_query top_k (natDivQ 1 20)
      { subtask := name, tabs := tabs, matchCount := tabs.length }

/-- Modelled from the spec, for comparison with the implementation: the
grouping operation as the claim states it, searching with
`query = task name + " " + subtask name` and the threshold `0.03` that the
spec assigns to the task-grouping flow. -/
def groupTabsSpecClaim (st : Retriever) (task_name : String)
    (subtask_names : List String) (top_k : ℤ) : List SubtaskGroup :=
  if has_tabs st = false then []
  else
    subtask_names.map fun name =>
      let tabs := search st (task_name ++ " " ++ name) top_k (natDivQ 3 100)
      { subtask := name, tabs := tabs, matchCount := tabs.length }

/-! ### Snapshot replace (`save_tabs`)

The ingest boundary (§6) accepts records with optional `title`, `url`,
`content` string fields; absent fields default to `""` (the source's
`tab.get(...) or ""` — for a string value, `or ""` maps `""` to itself and
is the identity otherwise).
-/

/-- A raw ingest record at the §6 boundary. -/
structure RawTab where
  title : Option String
  url : Option String
  content : Option String
deriving DecidableEq

/-- Python exception kinds relevant to this module. -/
inductive PyError where
  | attributeError
  | typeError
  | osError
deriving DecidableEq

/-- The sanitization inside `save_tabs`:
`{"title": (tab.get("title") or "")[:200], "url": tab.get("url") or "",
"content": (tab.get("content") or "")[:6000]}`. -/
def sanitizeTab (raw : RawTab) : Tab :=
  { title := pyTake (raw.title.getD "") 200
  , url := raw.url.getD ""
  , content := pyTake (raw.content.getD "") 6000 }

/-- `TabRetriever.save_tabs`, with the file write made explicit: the write
happens before the assignments to `self.tabs` / `self.vectors`, so a write
failure propagates (first component) with the fields still untouched
(second component is the state after the call). -/
def save_tabs (st : Retriever) (rawTabs : List RawTab) (writeFails : Bool) :
    Except PyError Unit × Retriever :=
  let sanitized := rawTabs.map sanitizeTab
  if writeFails then (Except.error PyError.osError, st)
  else (Except.ok (), { tabs := sanitized, vectors := sanitized.map tabVector })

/-! ### Load (`_load` / `_vectorize_all` at construction time)

`_load` stores whatever `json.load` parsed into `self.tabs` — with no shape
validation — and only the `json.load` call itself is inside the
`try/except`; `_vectorize_all()` runs after it, outside.  To capture this
the parsed JSON value is modelled explicitly and the Python operations used
on it (`for tab in tabs`, `tab.get(key, default)`, f-string interpolation)
are given their fallible semantics.
-/

/-- A parsed JSON value. -/
inductive JValue where
  | null
  | bool (b : Bool)
  | num (n : ℤ)
  | str (s : String)
  | arr (elems : List JValue)
  | obj (fields : List (String × JValue))

/-- Python iteration `for x in v`: lists yield elements, dicts yield their
keys, strings yield 1-character strings; numbers, booleans and `None` raise
`TypeError`. -/
def pyIterate : JValue → Except PyError (List JValue)
  | .arr xs => .ok xs
  | .obj fs => .ok (fs.map fun f => .str f.1)
  | .str s => .ok (s.data.map fun c => .str (String.mk [c]))
  | _ => .error .typeError

/-- Python `v.get(key, default)`: only dicts have `.get`; anything else
raises `AttributeError`.  (Parsed JSON objects have unique keys.) -/
def jGet (v : JValue) (key : String) (dflt : JValue) : Except PyError JValue :=
  match v with
  | .obj fs => .ok (((fs.find? fun f => f.1 == key).map Prod.snd).getD dflt)
  | _ => .error .attributeError

/-- Python `str()` of a JSON value, as interpolated by the f-string in
`_vectorize_tab`.  The text of nested containers is abbreviated; no claim
depends on it. -/
def jToStr : JValue → String
  | .null => "None"
  | .bool b => if b then "True" else "False"
  | .num n => toString n
  | .str s => s
  | .arr _ => "[…]"
  | .obj _ => "\x7b…\x7d"

/-- `TabRetriever._vectorize_tab` applied to an arbitrary loaded value:
`Counter(self._tokenize(f"{tab.get('title', '')} {tab.get('content', '')}"))`. -/
def vectorizeTabJ (tab : JValue) : Except PyError Vec := do
  let t ← jGet tab "title" (.str "")
  let c ← jGet tab "content" (.str "")
  pure (tokenize (jToStr t ++ " " ++ jToStr c))

/-- `TabRetriever._vectorize_all` over the loaded value. -/
def vectorizeAllJ (tabs : JValue) : Except PyError (List Vec) := do
  let items ← pyIterate tabs
  items.mapM vectorizeTabJ

/-- The persisted-file state seen by `_load`: `none` when the file is
missing, `some none` when its bytes fail to parse as JSON, `some (some v)`
when they parse to `v`. -/
def loadRaw (file : Option (Option JValue)) : JValue :=
  match file with
  | none => .arr []
  | some none => .arr []
  | some (some v) => v

/-- `TabRetriever._load`: the missing-file and parse-failure paths fall back
to an empty tab list, then `_vectorize_all()` runs outside the
`try/except`, so any exception it raises propagates out of the
constructor. -/
def load (file : Option (Option JValue)) : Except PyError (JValue × List Vec) :=
  let tabs := loadRaw file
  (vectorizeAllJ tabs).map fun vecs => (tabs, vecs)

/-! ### State-passing versions of the read-only operations

`search` and `has_tabs` contain no assignment to `self` fields; their
statement-by-statement embedding therefore threads the receiver state
through unchanged, and every returned `Match` is a freshly constructed
record of computed field values. -/

/-- `search` as a state transformer: result plus the state after the call. -/
def searchState (st : Retriever) (query : String) (top_k : ℤ)
    (min_score : ℚ) : List Match × Retriever :=
  (search st query top_k min_score, st)

/-- `has_tabs` as a state transformer. -/
def hasTabsState (st : Retriever) : Bool × Retriever :=
  (has_tabs st, st)

/-! ### Supporting lemmas -/

theorem normSq_pos (a : Vec) (h : a ≠ []) : 0 < normSq a := by
  obtain ⟨x, xs, rfl⟩ := List.exists_cons_of_ne_nil h
  refine Finset.sum_pos' (fun t _ => Nat.zero_le _) ⟨x, ?_, ?_⟩
  · simp [List.mem_toFinset]
  · have hx : 0 < (x :: xs).count x := by
      simp [List.count_cons_self]
    exact pow_pos hx 2

theorem dot_self (a : Vec) : dot a a = normSq a := by
  unfold dot normSq
  exact Finset.sum_congr rfl fun t _ => (pow_two _).symm

/-- Cauchy–Schwarz for the term-frequency dot product. -/
theorem dot_sq_le (a b : Vec) : dot a b ^ 2 ≤ normSq a * normSq b := by
  have hsubA : a.toFinset ⊆ a.toFinset ∪ b.toFinset := Finset.subset_union_left
  have hsubB : b.toFinset ⊆ a.toFinset ∪ b.toFinset := Finset.subset_union_right
  have hdot : dot a b = ∑ t ∈ a.toFinset ∪ b.toFinset, a.count t * b.count t := by
    refine Finset.sum_subset hsubA fun t _ ht => ?_
    have hz : a.count t = 0 := List.count_eq_zero.mpr (by simpa using ht)
    simp [hz]
  have hA : normSq a = ∑ t ∈ a.toFinset ∪ b.toFinset, a.count t ^ 2 := by
    refine Finset.sum_subset hsubA fun t _ ht => ?_
    have hz : a.count t = 0 := List.count_eq_zero.mpr (by simpa using ht)
    simp [hz]
  have hB : normSq b = ∑ t ∈ a.toFinset ∪ b.toFinset, b.count t ^ 2 := by
    refine Finset.sum_subset hsubB fun t _ ht => ?_
    have hz : b.count t = 0 := List.count_eq_zero.mpr (by simpa using ht)
    simp [hz]
  rw [hdot, hA, hB]
  exact Finset.sum_mul_sq_le_sq_mul_sq _ _ _

theorem le_of_sq_le_sq_real {x y : ℝ} (hx : 0 ≤ x) (hy : 0 ≤ y)
    (h : x ^ 2 ≤ y ^ 2) : x ≤ y := by
  calc x = Real.sqrt (x ^ 2) := (Real.sqrt_sq hx).symm
    _ ≤ Real.sqrt (y ^ 2) := Real.sqrt_le_sqrt h
    _ = y := Real.sqrt_sq hy

theorem lt_of_sq_lt_sq_real {x y : ℝ} (hx : 0 ≤ x) (hy : 0 ≤ y)
    (h : x ^ 2 < y ^ 2) : x < y := by
  by_contra hc
  push_neg at hc
  exact absurd (pow_le_pow_left hy hc 2) (not_le.mpr h)

set_option maxHeartbeats 1000000 in
/-- The rounded value `round4 d n` is within `1/20000` below `d / √n`. -/
theorem round4_ge (d n : ℕ) (hn : 0 < n) :
    (d : ℝ) / Real.sqrt n - 1 / 20000 ≤ ((round4 d n : ℚ) : ℝ) := by
  have hnR : (0 : ℝ) < (n : ℝ) := by exact_mod_cast hn
  have hs : 0 < Real.sqrt n := Real.sqrt_pos.mpr hnR
  have hcast : ∀ r : ℕ, ((natDivQ r 10000 : ℚ) : ℝ) = (r : ℝ) / 10000 := by
    intro r
    rw [natDivQ_eq r 10000 (by norm_num)]
    push_cast
    ring
  rw [round4]
  set D := 10000 * d with hD
  set k := intSqrt (D * D / n) with hk
  have hspec := intSqrt_spec (D * D / n)
  have hk1 : k ^ 2 * n ≤ D ^ 2 := by
    have h1 := (Nat.le_div_iff_mul_le hn).mp hspec.1
    nlinarith [h1]
  have hk2 : D ^ 2 < (k + 1) ^ 2 * n := by
    have h2 := (Nat.div_lt_iff_lt_mul hn).mp hspec.2
    nlinarith [h2]
  have hkR : (k : ℝ) * Real.sqrt n ≤ (D : ℝ) := by
    apply le_of_sq_le_sq_real (by positivity) (by positivity)
    rw [mul_pow, Real.sq_sqrt hnR.le]
    exact_mod_cast hk1
  have hDub : (D : ℝ) < ((k : ℝ) + 1) * Real.sqrt n := by
    apply lt_of_sq_lt_sq_real (by positivity) (by positivity)
    rw [mul_pow, Real.sq_sqrt hnR.le]
    exact_mod_cast hk2
  have hgoal : ∀ r : ℕ, (D : ℝ) / Real.sqrt n - 1 / 2 ≤ (r : ℝ) →
      (d : ℝ) / Real.sqrt n - 1 / 20000 ≤ ((natDivQ r 10000 : ℚ) : ℝ) := by
    intro r hr
    rw [hcast r]
    have hDd : (D : ℝ) = 10000 * (d : ℝ) := by
      rw [hD]; push_cast; ring
    have hXeq : (d : ℝ) / Real.sqrt n = ((D : ℝ) / Real.sqrt n) / 10000 := by
      rw [hDd]; ring
    rw [hXeq]
    linarith [hr]
  split_ifs with hc1 hc2 hpar
  · -- round down: 4 D² < (2k+1)² n, so D/√n < k + 1/2
    apply hgoal
    have h2D : 2 * (D : ℝ) < (2 * (k : ℝ) + 1) * Real.sqrt n := by
      apply lt_of_sq_lt_sq_real (by positivity) (by positivity)
      simp only [mul_pow]
      rw [Real.sq_sqrt hnR.le]
      have hc1R : ((4 * (D * D) : ℕ) : ℝ) < (((2 * k + 1) * (2 * k + 1) * n : ℕ) : ℝ) := by
        exact_mod_cast hc1
      push_cast at hc1R
      nlinarith [hc1R]
    rw [sub_le_iff_le_add, div_le_iff hs]
    nlinarith [h2D, hs.le]
  · -- round up: D/√n < k + 1, hence ≥ D/√n - 1/2
    apply hgoal
    rw [sub_le_iff_le_add, div_le_iff hs]
    push_cast
    nlinarith [hDub, hs.le]
  · -- tie, k even: 4 D² = (2k+1)² n exactly, so D/√n - 1/2 = k
    apply hgoal
    have hNat : 4 * (D * D) = (2 * k + 1) * (2 * k + 1) * n := by omega
    have heq : 4 * (D : ℝ) ^ 2 = (2 * (k : ℝ) + 1) ^ 2 * (n : ℝ) := by
      have hcasteq : ((4 * (D * D) : ℕ) : ℝ) = (((2 * k + 1) * (2 * k + 1) * n : ℕ) : ℝ) := by
        exact_mod_cast hNat
      push_cast at hcasteq
      linear_combination hcasteq
    have h2D : 2 * (D : ℝ) = (2 * (k : ℝ) + 1) * Real.sqrt n := by
      have hle : 2 * (D : ℝ) ≤ (2 * (k : ℝ) + 1) * Real.sqrt n := by
        apply le_of_sq_le_sq_real (by positivity) (by positivity)
        simp only [mul_pow]
        rw [Real.sq_sqrt hnR.le]
        nlinarith [heq]
      have hge : (2 * (k : ℝ) + 1) * Real.sqrt n ≤ 2 * (D : ℝ) := by
        apply le_of_sq_le_sq_real (by positivity) (by positivity)
        simp only [mul_pow]
        rw [Real.sq_sqrt hnR.le]
        nlinarith [heq]
      linarith
    rw [sub_le_iff_le_add, div_le_iff hs]
    nlinarith [h2D, hs.le]
  · -- tie, k odd, rounds to k + 1
    apply hgoal
    rw [sub_le_iff_le_add, div_le_iff hs]
    push_cast
    nlinarith [hDub, hs.le]

/-- Soundness of the threshold decision: `simGE a b q` implies the real
cosine similarity is at least `q`. -/
theorem le_cosineSimilarity_of_simGE (a b : Vec) (q : ℚ)
    (h : simGE a b q = true) : (q : ℝ) ≤ cosineSimilarity a b := by
  rw [simGE] at h
  rw [cosineSimilarity]
  split_ifs at h ⊢ with h1 h2
  · exact Rat.cast_nonpos.mpr (Rat.num_nonpos.mp (by simpa using h))
  · exact Rat.cast_nonpos.mpr (Rat.num_nonpos.mp (by simpa using h))
  · have hcosnn : (0 : ℝ) ≤ (dot a b : ℝ) /
        (Real.sqrt (normSq a) * Real.sqrt (normSq b)) := by positivity
    rcases Bool.or_eq_true_iff.mp h with hq | hsq
    · have hq' : q ≤ 0 := Rat.num_nonpos.mp (by simpa using hq)
      have : (q : ℝ) ≤ 0 := Rat.cast_nonpos.mpr hq'
      linarith
    · by_cases hq0 : q ≤ 0
      · have : (q : ℝ) ≤ 0 := Rat.cast_nonpos.mpr hq0
        linarith
      · push_neg at hq0
        have hineq : q.num ^ 2 * ((normSq a : ℤ) * (normSq b : ℤ)) ≤
            (dot a b : ℤ) ^ 2 * (q.den : ℤ) ^ 2 := by simpa using hsq
        have hna : normSq a ≠ 0 ∧ normSq b ≠ 0 := by
          constructor <;> (intro hz; apply h2; simp [hz])
        have hnaR : (0 : ℝ) < (normSq a : ℝ) := by
          exact_mod_cast Nat.pos_of_ne_zero hna.1
        have hnbR : (0 : ℝ) < (normSq b : ℝ) := by
          exact_mod_cast Nat.pos_of_ne_zero hna.2
        have hsa : 0 < Real.sqrt (normSq a) := Real.sqrt_pos.mpr hnaR
        have hsb : 0 < Real.sqrt (normSq b) := Real.sqrt_pos.mpr hnbR
        rw [le_div_iff (by positivity)]
        apply le_of_sq_le_sq_real
          (mul_nonneg (Rat.cast_nonneg.mpr hq0.le) (by positivity))
          (Nat.cast_nonneg _)
        rw [mul_pow, mul_pow, Real.sq_sqrt hnaR.le, Real.sq_sqrt hnbR.le]
        have hden : (0 : ℝ) < ((q.den : ℝ)) ^ 2 := by
          have : (0 : ℝ) < (q.den : ℝ) := by exact_mod_cast q.den_pos
          positivity
        rw [Rat.cast_def, div_pow, div_mul_eq_mul_div, div_le_iff hden]
        calc ((q.num : ℝ)) ^ 2 * ((normSq a : ℝ) * (normSq b : ℝ))
            ≤ ((dot a b : ℝ)) ^ 2 * ((q.den : ℝ)) ^ 2 := by exact_mod_cast hineq
          _ = ((dot a b : ℝ)) ^ 2 * ((q.den : ℝ)) ^ 2 := rfl

/-- The stored rounded score is within `1/20000` below the real similarity. -/
theorem matchScore_ge_cos (a b : Vec) :
    cosineSimilarity a b - 1 / 20000 ≤ ((matchScore a b : ℚ) : ℝ) := by
  rw [cosineSimilarity, matchScore]
  split_ifs with h1 h2
  · norm_num
  · norm_num
  · have hna : normSq a ≠ 0 ∧ normSq b ≠ 0 := by
      constructor <;> (intro hz; apply h2; simp [hz])
    have hn : 0 < normSq a * normSq b :=
      Nat.mul_pos (Nat.pos_of_ne_zero hna.1) (Nat.pos_of_ne_zero hna.2)
    have hr := round4_ge (dot a b) (normSq a * normSq b) hn
    have hsqrt : Real.sqrt ((normSq a * normSq b : ℕ) : ℝ) =
        Real.sqrt (normSq a) * Real.sqrt (normSq b) := by
      push_cast
      exact Real.sqrt_mul (Nat.cast_nonneg _) _
    rw [hsqrt] at hr
    exact hr

/-- `simGE` plus rounding: every accepted match's stored score is at least
`min_score - 1/20000`. -/
theorem matchScore_ge (a b : Vec) (q : ℚ) (h : simGE a b q = true) :
    q - 1 / 20000 ≤ matchScore a b := by
  have hR : (q : ℝ) ≤ cosineSimilarity a b := le_cosineSimilarity_of_simGE a b q h
  have hup := matchScore_ge_cos a b
  have : ((q - 1 / 20000 : ℚ) : ℝ) ≤ ((matchScore a b : ℚ) : ℝ) := by
    push_cast
    linarith
  exact_mod_cast this

theorem pySlice_nil {α : Type} (k : ℤ) : pySlice ([] : List α) k = [] := by
  rw [pySlice]
  split_ifs <;> simp

theorem pyTake_length_le (s : String) (n : ℕ) : (pyTake s n).length ≤ n := by
  have : (pyTake s n).length = (s.data.take n).length := rfl
  rw [this]
  exact s.data.length_take_le n

/-- Inserting into a filtered-by-one-score view: the insertion point lies
before every strictly smaller score and after every strictly larger one, so
elements with the same score keep their order. -/
theorem filter_orderedInsert_score (m : Match) (l : List Match) (s : ℚ) :
    (List.orderedInsert scoreGE m l).filter (fun x => x.score == s) =
      if m.score = s then m :: l.filter (fun x => x.score == s)
      else l.filter (fun x => x.score == s) := by
  induction l with
  | nil =>
    by_cases hms : m.score = s
    · simp [List.orderedInsert, hms]
    · simp [List.orderedInsert, hms]
  | cons b tl ih =>
    rw [List.orderedInsert]
    by_cases hle : scoreGE m b
    · rw [if_pos hle]
      by_cases hms : m.score = s
      · simp [List.filter_cons, hms]
      · simp [List.filter_cons, hms]
    · rw [if_neg hle]
      by_cases hms : m.score = s
      · have hbs : ¬ b.score = s := fun hbs =>
          hle (le_of_eq (hbs.trans hms.symm))
        simp [List.filter_cons, hms, hbs, ih]
      · by_cases hbs : b.score = s
        · simp [List.filter_cons, hms, hbs, ih]
        · simp [List.filter_cons, hms, hbs, ih]

/-- Stability of the sort: filtering the sorted list down to one score value
gives the same list as filtering the input. -/
theorem filter_insertionSort_score (l : List Match) (s : ℚ) :
    (List.insertionSort scoreGE l).filter (fun x => x.score == s) =
      l.filter (fun x => x.score == s) := by
  induction l with
  | nil => rfl
  | cons m tl ih =>
    rw [List.insertionSort, filter_orderedInsert_score, List.filter_cons]
    by_cases hms : m.score = s
    · simp [hms, ih]
    · simp [hms, ih]

/-- Every returned match arises from a tab/vector pair that passed the
threshold test, with the recorded fields. -/
theorem mem_search (st : Retriever) (q : String) (k : ℤ) (msc : ℚ)
    (mtch : Match) (h : mtch ∈ search st q k msc) :
    ∃ td ∈ st.tabs.zip st.vectors, simGE (vectorizeQuery q) td.2 msc = true ∧
      mtch = { title := td.1.title, url := td.1.url,
               snippet := pyTake td.1.content 320,
               score := matchScore (vectorizeQuery q) td.2 } := by
  have h1 : mtch ∈ List.insertionSort scoreGE (searchAll st q msc) := by
    rw [search, pySlice] at h
    split_ifs at h <;> exact (List.take_sublist _ _).subset h
  rw [List.mem_insertionSort] at h1
  rw [searchAll] at h1
  simp only [List.mem_filterMap] at h1
  obtain ⟨td, htd, hmk⟩ := h1
  by_cases hs : simGE (vectorizeQuery q) td.2 msc = true
  · rw [if_pos hs] at hmk
    exact ⟨td, htd, hs, (Option.some_injective _ hmk).symm⟩
  · rw [if_neg hs] at hmk
    exact absurd hmk (by simp)

/-! ### Claim theorems -/

/-- C1 (counterexample): the claim "every returned Match's stored (rounded)
score is at least `minScore`" fails: with one tab whose text tokenizes to
`{aaa}` and the query `"aaa bbb"`, the raw similarity is `1/√2 ≈ 0.7071068`,
which passes the filter for `minScore = 0.707106`, but the stored score is
the rounded `0.7071 < 0.707106`. -/
theorem search_rounded_below_minScore :
    ∃ mtch ∈ search (ofSnapshot [⟨"", "u", "aaa"⟩]) "aaa bbb" 3
      (707106 / 1000000 : ℚ), mtch.score < (707106 / 1000000 : ℚ) := by
  have hq : (707106 / 1000000 : ℚ) = natDivQ 707106 1000000 := by
    rw [natDivQ_eq _ _ (by norm_num)]
    norm_num
  rw [hq]
  decide

/-- C1 (amended): the threshold is applied to the raw similarity before
rounding, so every returned Match's stored score is at least
`minScore - 1/20000` (rounding to 4 decimal places moves the value by at
most `0.00005`). -/
theorem search_minScore_rounding (tabs : List Tab) (q : String) (k : ℤ)
    (m : ℚ) (mtch : Match)
    (h : mtch ∈ search (ofSnapshot tabs) q k m) :
    m - 1 / 20000 ≤ mtch.score := by
  obtain ⟨td, _, hsim, rfl⟩ := mem_search _ _ _ _ _ h
  exact matchScore_ge _ _ _ hsim

/-- C1 (witness): the amended bound evaluated at `minScore = 0.05` on the
concrete snapshot. -/
theorem search_minScore_rounding_witness :
    natDivQ 1 20 - 1 / 20000 ≤
      (Match.mk "" "u" "aaa" (natDivQ 7071 10000)).score :=
  search_minScore_rounding [⟨"", "u", "aaa"⟩] "aaa bbb" 3 (natDivQ 1 20)
    ⟨"", "u", "aaa", natDivQ 7071 10000⟩ (by decide)

/-- C2 (counterexample): a query that tokenizes to nothing does not always
give an empty result: with `minScore = 0`, every tab scores `0.0 ≥ 0` and is
returned. -/
theorem search_empty_query_counterexample :
    search (ofSnapshot [⟨"", "u", "aaa"⟩]) "" 3 0 ≠ [] := by
  decide

/-- C2 (amended): `search` on an empty Snapshot returns `[]` for all
parameters, and a query that tokenizes to no tokens returns `[]` whenever
`minScore > 0` (the score of every tab is then exactly `0.0`, which the
filter `score >= min_score` still accepts when `minScore ≤ 0`).  The
embedding is total, so no exception is possible. -/
theorem search_empty (tabs : List Tab) (q : String) (k : ℤ) (m : ℚ)
    (h1 : tabs = [] ∨ tokenize q = []) (h2 : tabs = [] ∨ 0 < m) :
    search (ofSnapshot tabs) q k m = [] := by
  by_cases ht : tabs = []
  · subst ht
    rw [search, searchAll]
    simp only [ofSnapshot, List.map_nil, List.zip_nil_right, List.filterMap_nil]
    rw [show List.insertionSort scoreGE [] = [] from rfl]
    exact pySlice_nil k
  · have hq : tokenize q = [] := h1.resolve_left ht
    have hm : 0 < m := h2.resolve_left ht
    have hnum : ¬ m.num ≤ 0 := by
      rw [Rat.num_nonpos]
      exact not_le.mpr hm
    rw [search, searchAll]
    have hnone : ∀ td ∈ (ofSnapshot tabs).tabs.zip (ofSnapshot tabs).vectors,
        (if simGE (vectorizeQuery q) td.2 m then
          some { title := td.1.title, url := td.1.url,
                 snippet := pyTake td.1.content 320,
                 score := matchScore (vectorizeQuery q) td.2 }
         else none) = (none : Option Match) := by
      intro td _
      rw [if_neg]
      rw [vectorizeQuery, hq, simGE]
      simp [hnum]
    rw [List.filterMap_eq_nil.mpr hnone]
    rw [show List.insertionSort scoreGE [] = [] from rfl]
    exact pySlice_nil k

/-- C2 (witness): a two-character query tokenizes to nothing and returns no
matches at the caller's default `minScore = 0.05` on a nonempty snapshot. -/
theorem search_empty_witness :
    search (ofSnapshot [⟨"Pizza", "u2", "dough"⟩]) "ab" 3 (natDivQ 1 20) = [] :=
  search_empty [⟨"Pizza", "u2", "dough"⟩] "ab" 3 (natDivQ 1 20)
    (Or.inr (by decide)) (Or.inr (by decide))

/-- C3 (counterexample): a stored Tab whose title and content produce no
tokens has self-similarity `0.0`, not `1.0` (the empty-vector guard fires
before the cosine is computed). -/
theorem self_similarity_counterexample :
    cosineSimilarity
      (vectorizeQuery ((Tab.mk "" "u" "").title ++ " " ++ (Tab.mk "" "u" "").content))
      (tabVector (Tab.mk "" "u" "")) ≠ 1 := by
  have h1 : vectorizeQuery ((Tab.mk "" "u" "").title ++ " " ++ (Tab.mk "" "u" "").content)
      = [] := by decide
  have h2 : tabVector (Tab.mk "" "u" "") = [] := by decide
  rw [h1, h2]
  simp [cosineSimilarity]

/-- C3 (amended): for every stored Tab whose `title + " " + content`
tokenizes to at least one token, querying with that very text scores
exactly `1.0` against the Tab's own vector. -/
theorem self_similarity (t : Tab) (h : tabVector t ≠ []) :
    cosineSimilarity (vectorizeQuery (t.title ++ " " ++ t.content))
      (tabVector t) = 1 := by
  have hv : vectorizeQuery (t.title ++ " " ++ t.content) = tabVector t := rfl
  rw [hv]
  have hn : 0 < normSq (tabVector t) := normSq_pos _ h
  rw [cosineSimilarity]
  rw [if_neg (by simp [h]), if_neg (by simp; omega)]
  rw [dot_self]
  have hnR : (0 : ℝ) < (normSq (tabVector t) : ℝ) := by exact_mod_cast hn
  rw [Real.mul_self_sqrt hnR.le]
  exact div_self hnR.ne'

/-- C3 (witness): a concrete two-token tab. -/
theorem self_similarity_witness :
    cosineSimilarity
      (vectorizeQuery ((Tab.mk "Linear" "u1" "algebra").title ++ " " ++
        (Tab.mk "Linear" "u1" "algebra").content))
      (tabVector (Tab.mk "Linear" "u1" "algebra")) = 1 :=
  self_similarity (Tab.mk "Linear" "u1" "algebra") (by decide)

/-- C4 (confirmed): the similarity score of any two term-frequency vectors
(whose counts are non-negative by construction) lies in `[0, 1]`. -/
theorem cosineSimilarity_bounds (a b : Vec) :
    0 ≤ cosineSimilarity a b ∧ cosineSimilarity a b ≤ 1 := by
  rw [cosineSimilarity]
  split_ifs with h1 h2
  · norm_num
  · norm_num
  · constructor
    · positivity
    · have hna : normSq a ≠ 0 ∧ normSq b ≠ 0 := by
        constructor <;> (intro hz; exact h2 (by simp [hz]))
      have hnaR : (0 : ℝ) < (normSq a : ℝ) := by
        exact_mod_cast Nat.pos_of_ne_zero hna.1
      have hnbR : (0 : ℝ) < (normSq b : ℝ) := by
        exact_mod_cast Nat.pos_of_ne_zero hna.2
      rw [div_le_one (by positivity)]
      have hcs : ((dot a b : ℝ)) ^ 2 ≤ ((normSq a : ℝ)) * ((normSq b : ℝ)) := by
        exact_mod_cast dot_sq_le a b
      calc (dot a b : ℝ)
          = Real.sqrt ((dot a b : ℝ) ^ 2) := (Real.sqrt_sq (Nat.cast_nonneg _)).symm
        _ ≤ Real.sqrt ((normSq a : ℝ) * (normSq b : ℝ)) := Real.sqrt_le_sqrt hcs
        _ = Real.sqrt (normSq a) * Real.sqrt (normSq b) :=
            Real.sqrt_mul (Nat.cast_nonneg _) _

/-- C5 (counterexample): for a negative `topK` the Python slice
`results[:top_k]` still returns elements (it counts from the end), so the
"length at most `topK`" bound fails at `topK = -1` with two matching tabs:
one match is returned and `1 ≤ -1` is false. -/
theorem search_topk_counterexample :
    ¬ (((search (ofSnapshot [⟨"", "u1", "aaa"⟩, ⟨"", "u2", "aaa"⟩])
        "aaa" (-1) 0).length : ℤ) ≤ (-1)) := by
  decide

/-- C5 (amended): for every snapshot, query, `topK` and `minScore`, the
returned sequence is sorted by stored score descending, and for any score
value, the returned matches with that score are a sublist of the pre-sort
result list (which lists survivors in Snapshot order), i.e. ties preserve
Snapshot order — both with no restriction on `topK`, since the slice
`results[:top_k]` is always a prefix of the sorted list; the length bound
holds for every `topK ≥ 0`. -/
theorem search_sorted_stable_topk (tabs : List Tab) (q : String) (k : ℤ)
    (m s : ℚ) :
    (search (ofSnapshot tabs) q k m).Pairwise (fun x y => y.score ≤ x.score) ∧
    (search (ofSnapshot tabs) q k m).filter (fun x => x.score == s) <+
      (searchAll (ofSnapshot tabs) q m).filter (fun x => x.score == s) ∧
    (0 ≤ k → ((search (ofSnapshot tabs) q k m).length : ℤ) ≤ k) := by
  have hsub : search (ofSnapshot tabs) q k m <+
      List.insertionSort scoreGE (searchAll (ofSnapshot tabs) q m) := by
    rw [search, pySlice]
    split_ifs <;> exact List.take_sublist _ _
  refine ⟨?_, ?_, ?_⟩
  · exact List.Pairwise.sublist hsub (List.sorted_insertionSort scoreGE _)
  · have h1 := hsub.filter (fun x => x.score == s)
    rwa [filter_insertionSort_score] at h1
  · intro hk
    rw [search, pySlice, if_pos hk]
    have hlen : (List.take k.toNat
        (List.insertionSort scoreGE (searchAll (ofSnapshot tabs) q m))).length
        ≤ k.toNat := List.length_take_le _ _
    calc ((List.take k.toNat
          (List.insertionSort scoreGE (searchAll (ofSnapshot tabs) q m))).length : ℤ)
        ≤ (k.toNat : ℤ) := by exact_mod_cast hlen
      _ = k := Int.toNat_of_nonneg hk

/-- C5 (witness): the amended properties at `topK = 3`, score value `1`, on
a two-tab snapshot where both tabs match, with the length-bound hypothesis
`0 ≤ 3` discharged. -/
theorem search_sorted_stable_topk_witness :
    (search (ofSnapshot [⟨"", "u1", "aaa"⟩, ⟨"", "u2", "aaa"⟩]) "aaa" 3 0).Pairwise
        (fun x y => y.score ≤ x.score) ∧
      (search (ofSnapshot [⟨"", "u1", "aaa"⟩, ⟨"", "u2", "aaa"⟩]) "aaa" 3 0).filter
          (fun x => x.score == (1 : ℚ)) <+
        (searchAll (ofSnapshot [⟨"", "u1", "aaa"⟩, ⟨"", "u2", "aaa"⟩]) "aaa" 0).filter
          (fun x => x.score == (1 : ℚ)) ∧
      ((search (ofSnapshot [⟨"", "u1", "aaa"⟩, ⟨"", "u2", "aaa"⟩]) "aaa" 3 0).length : ℤ)
        ≤ 3 :=
  ⟨(search_sorted_stable_topk [⟨"", "u1", "aaa"⟩, ⟨"", "u2", "aaa"⟩] "aaa" 3 0 1).1,
    (search_sorted_stable_topk [⟨"", "u1", "aaa"⟩, ⟨"", "u2", "aaa"⟩] "aaa" 3 0 1).2.1,
    (search_sorted_stable_topk [⟨"", "u1", "aaa"⟩, ⟨"", "u2", "aaa"⟩] "aaa" 3 0 1).2.2
      (by decide)⟩

/-- C6 (counterexample): the grouping operation does not search with
`minScore = 0.03`: a tab whose similarity to the combined query is
`1/√452 ≈ 0.047` (between `0.03` and `0.05`) is dropped by
`group_tabs_for_subtasks` (which leaves `search`'s `min_score` at its
default `0.05`) but would be returned at `0.03` as the claim states. -/
theorem group_threshold_counterexample :
    group_tabs_for_subtasks
        (ofSnapshot [⟨"", "u",
          "alpha aaa aaa aaa aaa aaa aaa aaa aaa aaa aaa aaa aaa aaa aaa aaa"⟩])
        "alpha" ["beta"] 3 ≠
      groupTabsSpecClaim
        (ofSnapshot [⟨"", "u",
          "alpha aaa aaa aaa aaa aaa aaa aaa aaa aaa aaa aaa aaa aaa aaa aaa"⟩])
        "alpha" ["beta"] 3 := by
  decide

/-- C6 (amended): on a nonempty corpus, the group for the `i`-th subtask is
produced by `search` with query `(task_name + " " + name).strip()` and the
`search` default threshold `minScore = 0.05` (not `0.03`), together with its
match count. -/
theorem group_uses_default_threshold (st : Retriever) (task : String)
    (names : List String) (k : ℤ) (i : ℕ) (name : String)
    (hn : names[i]? = some name) (ht : has_tabs st = true) :
    (group_tabs_for_subtasks st task names k)[i]? =
      some { subtask := name,
             tabs := search st (pyStrip (task ++ " " ++ name)) k (natDivQ 1 20),
             matchCount :=
               (search st (pyStrip (task ++ " " ++ name)) k (natDivQ 1 20)).length } := by
  rw [group_tabs_for_subtasks, if_neg (by simp [ht]), List.getElem?_map, hn]
  rfl

/-- C6 (witness): the amended call contract at a concrete state. -/
theorem group_uses_default_threshold_witness :
    (group_tabs_for_subtasks (ofSnapshot [⟨"", "u", "aaa"⟩]) "aaa" ["bbb"] 3)[0]? =
      some { subtask := "bbb",
             tabs := search (ofSnapshot [⟨"", "u", "aaa"⟩])
               (pyStrip ("aaa" ++ " " ++ "bbb")) 3 (natDivQ 1 20),
             matchCount := (search (ofSnapshot [⟨"", "u", "aaa"⟩])
               (pyStrip ("aaa" ++ " " ++ "bbb")) 3 (natDivQ 1 20)).length } :=
  group_uses_default_threshold (ofSnapshot [⟨"", "u", "aaa"⟩]) "aaa" ["bbb"] 3 0
    "bbb" (by decide) (by decide)

/-- C7 (code bug): `load` of a file whose bytes are the valid JSON text
`[1]` raises: `json.load` succeeds, `self.tabs` becomes `[1]`, and
`_vectorize_all` — outside the `try/except` — calls `.get` on the integer
`1`, raising `AttributeError` out of the constructor, contrary to the
claimed "never raises, falls back to an empty snapshot". -/
theorem load_raises_on_valid_json :
    load (some (some (JValue.arr [JValue.num 1]))) =
      Except.error PyError.attributeError := rfl

/-- C8 (confirmed): if the persist step of `save_tabs` fails, the error
propagates to the caller and the in-memory state (Snapshot and derived
vectors alike) is exactly the pre-call state: the field assignments come
after the write in the source (persist-then-swap). -/
theorem save_tabs_write_failure (st : Retriever) (raws : List RawTab) :
    (save_tabs st raws true).1 = Except.error PyError.osError ∧
      (save_tabs st raws true).2 = st :=
  ⟨rfl, rfl⟩

/-- C9 (confirmed): after a completed snapshot replace, every stored Tab has
all three fields (the `Tab` record is total), absent input fields default to
`""`, the stored title has at most 200 characters and the stored content at
most 6000, for inputs of any length. -/
theorem save_tabs_invariant (st : Retriever) (raws : List RawTab) (t : Tab)
    (h : t ∈ (save_tabs st raws false).2.tabs) :
    t.title.length ≤ 200 ∧ t.content.length ≤ 6000 ∧
      ∃ r ∈ raws, t = sanitizeTab r ∧
        (r.title = none → t.title = "") ∧ (r.url = none → t.url = "") ∧
        (r.content = none → t.content = "") := by
  have h' : t ∈ raws.map sanitizeTab := h
  obtain ⟨r, hr, rfl⟩ := List.mem_map.mp h'
  refine ⟨pyTake_length_le _ _, pyTake_length_le _ _, r, hr, rfl, ?_, ?_, ?_⟩
  · intro hnone
    simp [sanitizeTab, hnone, pyTake]
  · intro hnone
    simp [sanitizeTab, hnone]
  · intro hnone
    simp [sanitizeTab, hnone, pyTake]

set_option maxRecDepth 4000 in
/-- C9 (witness): a 201-character title is truncated to 200 characters, and
the absent url and content fields default to the empty string. -/
theorem save_tabs_invariant_witness :
    (sanitizeTab ⟨some (String.mk (List.replicate 201 'a')), none, none⟩).title.length ≤ 200 ∧
    (sanitizeTab ⟨some (String.mk (List.replicate 201 'a')), none, none⟩).content.length ≤ 6000 ∧
      ∃ r ∈ [(⟨some (String.mk (List.replicate 201 'a')), none, none⟩ : RawTab)],
        sanitizeTab ⟨some (String.mk (List.replicate 201 'a')), none, none⟩ = sanitizeTab r ∧
        (r.title = none →
          (sanitizeTab ⟨some (String.mk (List.replicate 201 'a')), none, none⟩).title = "") ∧
        (r.url = none →
          (sanitizeTab ⟨some (String.mk (List.replicate 201 'a')), none, none⟩).url = "") ∧
        (r.content = none →
          (sanitizeTab ⟨some (String.mk (List.replicate 201 'a')), none, none⟩).content = "") :=
  save_tabs_invariant ⟨[], []⟩
    [⟨some (String.mk (List.replicate 201 'a')), none, none⟩]
    (sanitizeTab ⟨some (String.mk (List.replicate 201 'a')), none, none⟩)
    (by decide)

/-- C10 (confirmed): the state-passing embeddings of `search` and
`has_tabs` leave the stored Tab sequence and the derived vectors unchanged
and return exactly the pure results; every returned Match is a record built
from computed field values (value semantics — the source constructs a fresh
dict per result). -/
theorem search_hasTabs_readonly (st : Retriever) (q : String) (k : ℤ) (m : ℚ) :
    (searchState st q k m).2 = st ∧ (hasTabsState st).2 = st ∧
      (searchState st q k m).1 = search st q k m ∧
      (hasTabsState st).1 = has_tabs st :=
  ⟨rfl, rfl, rfl, rfl⟩

end TabsRetriever
